import Mathlib

/-!
Verification of the event-preparation core of a Sentry error-reporting
client (`Client::prepare_event` in `src/client.rs`): scope merging,
platform normalization, backtrace trimming and frame classification.

The data types `Event`, `Exception`, `Stacktrace`, `Frame` and `Scope`
live in collaborator crates (`protocol`, `scope`) that are not part of
this repository's sources; they are modelled from the spec's data model
(§3), which lists exactly the fields `prepare_event` reads and writes.
The fixed tables `WELL_KNOWN_BORDER_FRAMES` and `WELL_KNOWN_SYS_MODULES`
come from the external `backtrace_support` crate; they are modelled as
parameters (`borderFrames`, `sysModules`), so every theorem holds for
the actual fixed tables in particular.
-/

namespace SentryClient

/-- Modelled from the spec: breadcrumbs are opaque payloads, cloned
wholesale during merging; their internal structure is irrelevant here. -/
abbrev Breadcrumb := String

/-- Modelled from the spec: the user payload is opaque to preparation. -/
abbrev User := String

/-- Modelled from the spec: values of the Extra/Tags maps are opaque. -/
abbrev Value := String

/-- Modelled from the spec: maps (string → value) as association lists;
`insertKV` below gives them map-insert (overwrite) semantics. -/
abbrev KVMap := List (String × Value)

/-- Modelled from the spec (§3): a stack frame with optional function
name, optional package label, and tri-state in-app flag. -/
structure Frame where
  function : Option String
  package : Option String
  in_app : Option Bool
deriving DecidableEq

/-- Modelled from the spec (§3): an ordered sequence of frames. -/
structure Stacktrace where
  frames : List Frame
deriving DecidableEq

/-- Modelled from the spec (§3): an exception with an optional stacktrace. -/
structure Exception where
  stacktrace : Option Stacktrace
deriving DecidableEq

/-- Modelled from the spec (§3): the event fields `prepare_event`
touches: platform label, exceptions, breadcrumbs, optional user,
Tags and Extra maps. -/
structure Event where
  platform : String
  exceptions : List Exception
  breadcrumbs : List Breadcrumb
  user : Option User
  tags : KVMap
  extra : KVMap
deriving DecidableEq

/-- Modelled from the spec (§3): ambient scope state. -/
structure Scope where
  user : Option User
  extra : Option KVMap
  tags : Option KVMap
  breadcrumbs : List Breadcrumb
deriving DecidableEq

/-- `ClientOptions` from `src/client.rs` (the DSN-independent fields read
by `prepare_event`). -/
structure ClientOptions where
  in_app_include : List String
  in_app_exclude : List String
  extra_border_frames : List String
  max_breadcrumbs : Nat
  trim_backtraces : Bool
deriving DecidableEq

/-- Lookup in an association-list map: value of the first entry with the
given key. -/
def getKV (m : KVMap) (k : String) : Option Value :=
  (m.find? (fun p => p.1 == k)).map (fun p => p.2)

/-- Map insert with overwrite, the semantics of `HashMap::insert`:
replaces the value of an existing key, else appends the entry. -/
def insertKV (m : KVMap) (k : String) (v : Value) : KVMap :=
  match m with
  | [] => [(k, v)]
  | (k', v') :: rest => if k' == k then (k, v) :: rest else (k', v') :: insertKV rest k v

/-- `HashMap::extend`: insert every entry of `entries` in order. -/
def extendKV (m : KVMap) (entries : KVMap) : KVMap :=
  entries.foldl (fun acc p => insertKV acc p.1 p.2) m

/-- Byte-wise `str::starts_with`, which for UTF-8 strings coincides with
character-list-wise. -/
def strStartsWith (s pat : String) : Bool :=
  pat.toList.isPrefixOf s.toList

/-- The capture of `CRATE_RE = ^([^:]+?)::` on a function name: the
non-empty run of non-colon characters at the start, provided it is
immediately followed by a double colon; `none` when the regex does not
match. -/
def crateOfFunc (func : String) : Option String :=
  let pre := func.toList.takeWhile (fun c => c != ':')
  if pre.length != 0 && (func.toList.drop pre.length).take 2 == [':', ':'] then
    some (String.mk pre)
  else none

/-- Scope merging, lines 198-222 of `src/client.rs`: append breadcrumbs,
set the user only when absent on the event, extend Extra and Tags from
the scope (scope values overwrite). -/
def mergeScope (event : Event) (scope : Scope) : Event :=
  let event :=
    if scope.breadcrumbs.isEmpty then event
    else { event with breadcrumbs := event.breadcrumbs ++ scope.breadcrumbs }
  let event :=
    match event.user, scope.user with
    | none, some u => { event with user := some u }
    | _, _ => event
  let event :=
    match scope.extra with
    | some extra => { event with extra := extendKV event.extra extra }
    | none => event
  match scope.tags with
  | some tags => { event with tags := extendKV event.tags tags }
  | none => event

/-- The border-frame test of the trimming scan (lines 232-239): a frame
matches when its function name is exactly a member of the built-in
border-frame table or of `options.extra_border_frames`; a frame without
a function name never matches. -/
def isBorderFrame (borderFrames : List String) (options : ClientOptions)
    (frame : Frame) : Bool :=
  match frame.function with
  | some func => borderFrames.contains func || options.extra_border_frames.contains func
  | none => false

/-- `stacktrace.frames.iter().rev().position(..)`: zero-based distance
from the end of the first border frame found scanning backward. -/
def trimCutoff (borderFrames : List String) (options : ClientOptions)
    (frames : List Frame) : Option Nat :=
  frames.reverse.findIdx? (isBorderFrame borderFrames options)

/-- Backtrace trimming (lines 231-243): on a backward-scan match at
distance `cutoff` from the end, truncate to `len - cutoff - 1` frames;
otherwise leave the frames unchanged. -/
def trimFrames (borderFrames : List String) (options : ClientOptions)
    (frames : List Frame) : List Frame :=
  match trimCutoff borderFrames options frames with
  | some cutoff => frames.take (frames.length - cutoff - 1)
  | none => frames

/-- Per-frame body of the classification loop (lines 247-301): skip
frames without a function name; infer a missing package from the crate
part of the function name; then determine the in-app flag with the
precedence explicit-flag, exclude, include, well-known system modules.
The second component is this frame's contribution to `any_in_app`. -/
def primeFrame (options : ClientOptions) (sysModules : List String)
    (frame : Frame) : Frame × Bool :=
  match frame.function with
  | none => (frame, false)
  | some func =>
    let frame :=
      if frame.package.isNone then { frame with package := crateOfFunc func }
      else frame
    match frame.in_app with
    | some true => (frame, true)
    | some false => (frame, false)
    | none =>
      if options.in_app_exclude.any (fun m => strStartsWith func m) then
        ({ frame with in_app := some false }, false)
      else if options.in_app_include.any (fun m => strStartsWith func m) then
        ({ frame with in_app := some true }, true)
      else if sysModules.any (fun m => strStartsWith func m) then
        ({ frame with in_app := some false }, false)
      else (frame, false)

/-- The `any_in_app` flag after the classification loop: true when some
frame carried an explicit in-app = true flag or matched an include rule. -/
def anyInApp (options : ClientOptions) (sysModules : List String)
    (frames : List Frame) : Bool :=
  frames.any (fun f => (primeFrame options sysModules f).2)

/-- The classification pass over a stacktrace (lines 246-309): run the
per-frame loop, then, when `any_in_app` is still false, set every frame
whose flag is still unset to in-app = true. -/
def classifyFrames (options : ClientOptions) (sysModules : List String)
    (frames : List Frame) : List Frame :=
  let primed := frames.map (fun f => (primeFrame options sysModules f).1)
  if anyInApp options sysModules frames then primed
  else primed.map (fun f => if f.in_app.isNone then { f with in_app := some true } else f)

/-- Per-stacktrace work of `prepare_event` (lines 229-310): trim when
enabled, then classify. -/
def prepareStacktrace (borderFrames sysModules : List String)
    (options : ClientOptions) (st : Stacktrace) : Stacktrace :=
  let frames := if options.trim_backtraces then trimFrames borderFrames options st.frames
    else st.frames
  { st with frames := classifyFrames options sysModules frames }

/-- `Client::prepare_event` (lines 197-312): merge the scope when
present, rewrite platform `"other"` to `"native"`, then trim and
classify every exception's stacktrace. -/
def prepareEvent (borderFrames sysModules : List String) (options : ClientOptions)
    (event : Event) (scope : Option Scope) : Event :=
  let event :=
    match scope with
    | some sc => mergeScope event sc
    | none => event
  let event :=
    if event.platform = "other" then { event with platform := "native" }
    else event
  { event with
    exceptions := event.exceptions.map (fun exc =>
      match exc.stacktrace with
      | none => exc
      | some st =>
          { exc with
            stacktrace := some (prepareStacktrace borderFrames sysModules options st) }) }

/-- Options with all lists empty and trimming on, for concrete checks. -/
def optsEmpty : ClientOptions :=
  { in_app_include := [], in_app_exclude := [], extra_border_frames := []
    max_breadcrumbs := 100, trim_backtraces := true }

theorem classifyFrames_length (options : ClientOptions) (sysModules : List String)
    (frames : List Frame) :
    (classifyFrames options sysModules frames).length = frames.length := by
  unfold classifyFrames
  split <;> simp

theorem classifyFrames_getElem? (options : ClientOptions) (sysModules : List String)
    (frames : List Frame) (i : Nat) :
    (classifyFrames options sysModules frames)[i]? =
      (frames[i]?).map (fun f =>
        if anyInApp options sysModules frames then (primeFrame options sysModules f).1
        else if (primeFrame options sysModules f).1.in_app.isNone then
          { (primeFrame options sysModules f).1 with in_app := some true }
        else (primeFrame options sysModules f).1) := by
  unfold classifyFrames
  by_cases h : anyInApp options sysModules frames
  · simp [h, List.getElem?_map]
  · simp only [h, if_false, Bool.false_eq_true, List.getElem?_map, Option.map_map]
    rfl

theorem map_id_of_forall {α : Type} (l : List α) (g : α → α) (h : ∀ x ∈ l, g x = x) :
    l.map g = l :=
  (List.map_congr_left h).trans (List.map_id l)

/-- C1: with trimming enabled, a backward scan finds the first frame whose
function name is exactly in the union of the built-in border set and
`extra_border_frames`; function-name-less frames never match; at backward
distance `p = tail.length` the frames are truncated to `len - p - 1`,
discarding the marker and everything after it; with no match the frames
are unchanged. In particular `[A, B, MARKER, C, D]` becomes `[A, B]`. -/
theorem trim_backtrace_contract (borderFrames : List String) (options : ClientOptions) :
    (∀ frame : Frame, frame.function = none →
        isBorderFrame borderFrames options frame = false)
    ∧ (∀ frames : List Frame,
        (∀ f ∈ frames, isBorderFrame borderFrames options f = false) →
        trimFrames borderFrames options frames = frames)
    ∧ (∀ (front : List Frame) (marker : Frame) (tail : List Frame),
        isBorderFrame borderFrames options marker = true →
        (∀ f ∈ tail, isBorderFrame borderFrames options f = false) →
        trimCutoff borderFrames options (front ++ marker :: tail) = some tail.length
        ∧ trimFrames borderFrames options (front ++ marker :: tail) = front
        ∧ front = (front ++ marker :: tail).take
            ((front ++ marker :: tail).length - tail.length - 1)) := by
  refine ⟨?_, ?_, ?_⟩
  · intro frame h
    simp [isBorderFrame, h]
  · intro frames h
    unfold trimFrames trimCutoff
    have hnone : frames.reverse.findIdx? (isBorderFrame borderFrames options) = none := by
      rw [List.findIdx?_eq_none_iff]
      intro x hx
      exact h x (List.mem_reverse.mp hx)
    rw [hnone]
  · intro front marker tail hm ht
    have hrev : (front ++ marker :: tail).reverse
        = tail.reverse ++ marker :: front.reverse := by
      simp
    have hnone : tail.reverse.findIdx? (isBorderFrame borderFrames options) = none := by
      rw [List.findIdx?_eq_none_iff]
      intro x hx
      exact ht x (List.mem_reverse.mp hx)
    have hcut : trimCutoff borderFrames options (front ++ marker :: tail)
        = some tail.length := by
      unfold trimCutoff
      rw [hrev, List.findIdx?_append, hnone, List.findIdx?_cons, hm]
      simp
    have hlen : (front ++ marker :: tail).length - tail.length - 1 = front.length := by
      simp only [List.length_append, List.length_cons]
      omega
    refine ⟨hcut, ?_, ?_⟩
    · unfold trimFrames
      rw [hcut]
      show (front ++ marker :: tail).take ((front ++ marker :: tail).length - tail.length - 1)
          = front
      rw [hlen]
      exact List.take_left front (marker :: tail)
    · rw [hlen]
      exact (List.take_left front (marker :: tail)).symm

theorem trim_backtrace_contract_witness :
    trimFrames [("MARKER")] optsEmpty
      [Frame.mk (some ("A")) none none, Frame.mk (some ("B")) none none,
       Frame.mk (some ("MARKER")) none none, Frame.mk (some ("C")) none none,
       Frame.mk (some ("D")) none none] =
      [Frame.mk (some ("A")) none none, Frame.mk (some ("B")) none none] :=
  ((trim_backtrace_contract [("MARKER")] optsEmpty).2.2
    [Frame.mk (some ("A")) none none, Frame.mk (some ("B")) none none]
    (Frame.mk (some ("MARKER")) none none)
    [Frame.mk (some ("C")) none none, Frame.mk (some ("D")) none none]
    (by decide) (by decide)).2.1

theorem mergeScope_spec (event : Event) (sc : Scope) :
    (mergeScope event sc).platform = event.platform
    ∧ (mergeScope event sc).exceptions = event.exceptions
    ∧ (mergeScope event sc).user =
        (match event.user, sc.user with
          | none, some u => some u
          | _, _ => event.user)
    ∧ (mergeScope event sc).breadcrumbs =
        (if sc.breadcrumbs.isEmpty then event.breadcrumbs
         else event.breadcrumbs ++ sc.breadcrumbs)
    ∧ (mergeScope event sc).extra =
        (match sc.extra with
          | some extra => extendKV event.extra extra
          | none => event.extra)
    ∧ (mergeScope event sc).tags =
        (match sc.tags with
          | some tags => extendKV event.tags tags
          | none => event.tags) := by
  unfold mergeScope
  cases h1 : sc.breadcrumbs.isEmpty <;>
    cases h2 : event.user <;> cases h3 : sc.user <;>
    cases h4 : sc.extra <;> cases h5 : sc.tags <;>
    simp [h1, h2, h3, h4, h5]

theorem prepareEvent_scalar_fields (borderFrames sysModules : List String)
    (options : ClientOptions) (event : Event) (scope : Option Scope) :
    (prepareEvent borderFrames sysModules options event scope).user
        = (match scope with | some sc => mergeScope event sc | none => event).user
    ∧ (prepareEvent borderFrames sysModules options event scope).extra
        = (match scope with | some sc => mergeScope event sc | none => event).extra
    ∧ (prepareEvent borderFrames sysModules options event scope).tags
        = (match scope with | some sc => mergeScope event sc | none => event).tags
    ∧ (prepareEvent borderFrames sysModules options event scope).breadcrumbs
        = (match scope with | some sc => mergeScope event sc | none => event).breadcrumbs := by
  cases scope with
  | none =>
      unfold prepareEvent
      refine ⟨?_, ?_, ?_, ?_⟩ <;> (dsimp only; split <;> rfl)
  | some sc =>
      unfold prepareEvent
      refine ⟨?_, ?_, ?_, ?_⟩ <;> (dsimp only; split <;> rfl)

/-- C4: preparation is a total function, and the truncation computation
`len - cutoff - 1` never underflows: a backward-scan match position is
strictly below the frame count, so the natural-number subtraction of the
code agrees with the exact integer subtraction. -/
theorem prepare_event_total (borderFrames sysModules : List String)
    (options : ClientOptions) :
    (∀ (event : Event) (scope : Option Scope), ∃ result : Event,
        prepareEvent borderFrames sysModules options event scope = result)
    ∧ (∀ (frames : List Frame) (cutoff : Nat),
        trimCutoff borderFrames options frames = some cutoff →
        cutoff < frames.length
        ∧ ((frames.length : Int) - (cutoff : Int) - 1
            = ((frames.length - cutoff - 1 : Nat) : Int))) := by
  refine ⟨fun event scope => ⟨_, rfl⟩, ?_⟩
  intro frames cutoff h
  unfold trimCutoff at h
  obtain ⟨hl, -⟩ := List.findIdx?_eq_some_iff_getElem.mp h
  rw [List.length_reverse] at hl
  exact ⟨hl, by omega⟩

theorem prepare_event_total_witness :
    (0 : Nat) < ([Frame.mk (some ("MARKER")) none none] : List Frame).length
    ∧ ((([Frame.mk (some ("MARKER")) none none] : List Frame).length : Int)
        - ((0 : Nat) : Int) - 1
        = ((([Frame.mk (some ("MARKER")) none none] : List Frame).length - 0 - 1 : Nat)
            : Int)) :=
  (prepare_event_total [("MARKER")] [] optsEmpty).2
    [Frame.mk (some ("MARKER")) none none] 0 (by decide)

/-- C8: preparation rewrites the platform label to the fixed native label
exactly when the event's platform equals `"other"`; any other platform
value is left unchanged. -/
theorem platform_correction (borderFrames sysModules : List String)
    (options : ClientOptions) (event : Event) (scope : Option Scope) :
    (prepareEvent borderFrames sysModules options event scope).platform
      = if event.platform = "other" then "native" else event.platform := by
  cases scope with
  | none =>
      unfold prepareEvent
      dsimp only
      rw [apply_ite Event.platform]
  | some sc =>
      unfold prepareEvent
      dsimp only
      rw [apply_ite Event.platform, (mergeScope_spec event sc).1]

theorem getKV_insertKV_self (m : KVMap) (k : String) (v : Value) :
    getKV (insertKV m k v) k = some v := by
  induction m with
  | nil => simp [insertKV, getKV]
  | cons p rest ih =>
      obtain ⟨k', v'⟩ := p
      unfold insertKV
      by_cases h : k' == k
      · simp [h, getKV, List.find?]
      · simpa [h, getKV, List.find?] using ih

theorem getKV_insertKV_ne (m : KVMap) (k k0 : String) (v : Value) (h : k0 ≠ k) :
    getKV (insertKV m k0 v) k = getKV m k := by
  have hb : (k0 == k) = false := by simpa using h
  induction m with
  | nil => simp [insertKV, getKV, List.find?, hb]
  | cons p rest ih =>
      obtain ⟨k', v'⟩ := p
      unfold insertKV
      by_cases hk : k' == k0
      · have hk' : k' = k0 := by simpa using hk
        subst hk'
        simp [getKV, List.find?, hb]
      · by_cases hkk : k' == k
        · simp [hk, hkk, getKV, List.find?]
        · simpa [hk, hkk, getKV, List.find?] using ih

theorem getKV_extendKV_not_mem (entries : KVMap) (k : String) :
    ∀ m : KVMap, k ∉ entries.map Prod.fst →
      getKV (extendKV m entries) k = getKV m k := by
  induction entries with
  | nil => intro m _; rfl
  | cons p rest ih =>
      intro m h
      obtain ⟨k0, v0⟩ := p
      simp only [List.map_cons, List.mem_cons, not_or] at h
      have hstep : extendKV m ((k0, v0) :: rest) = extendKV (insertKV m k0 v0) rest := rfl
      rw [hstep, ih (insertKV m k0 v0) h.2]
      exact getKV_insertKV_ne m k k0 v0 (fun he => h.1 he.symm)

theorem getKV_extendKV_mem (entries : KVMap) (k : String) (v : Value) :
    ∀ m : KVMap, (k, v) ∈ entries → (entries.map Prod.fst).Nodup →
      getKV (extendKV m entries) k = some v := by
  induction entries with
  | nil => intro m hmem _; cases hmem
  | cons p rest ih =>
      intro m hmem hnd
      obtain ⟨k0, v0⟩ := p
      have hstep : extendKV m ((k0, v0) :: rest) = extendKV (insertKV m k0 v0) rest := rfl
      rw [hstep]
      rcases List.mem_cons.mp hmem with heq | hmem'
      · injection heq with h1 h2
        subst h1
        subst h2
        simp only [List.map_cons] at hnd
        have hk : k ∉ rest.map Prod.fst := (List.nodup_cons.mp hnd).1
        rw [getKV_extendKV_not_mem rest k (insertKV m k v) hk]
        exact getKV_insertKV_self m k v
      · simp only [List.map_cons] at hnd
        exact ih (insertKV m k0 v0) hmem' (List.nodup_cons.mp hnd).2

/-- C6: merging a present scope never overwrites an existing event user
(the event-level user wins); when the event carries no user and the scope
does, the event receives the scope's user. -/
theorem scope_merge_user (borderFrames sysModules : List String)
    (options : ClientOptions) (event : Event) (sc : Scope) :
    (∀ u : User, event.user = some u →
        (prepareEvent borderFrames sysModules options event (some sc)).user = some u)
    ∧ (event.user = none → ∀ u : User, sc.user = some u →
        (prepareEvent borderFrames sysModules options event (some sc)).user = some u) := by
  have hu := (prepareEvent_scalar_fields borderFrames sysModules options event (some sc)).1
  dsimp only at hu
  have hm := (mergeScope_spec event sc).2.2.1
  constructor
  · intro u h
    rw [hu, hm, h]
  · intro h u hsu
    rw [hu, hm, h, hsu]

theorem scope_merge_user_witness :
    (prepareEvent [] [] optsEmpty
        (Event.mk ("rust") [] [] (some ("alice")) [] [])
        (some (Scope.mk (some ("bob")) none none []))).user = some ("alice") :=
  (scope_merge_user [] [] optsEmpty
    (Event.mk ("rust") [] [] (some ("alice")) [] [])
    (Scope.mk (some ("bob")) none none [])).1 ("alice") rfl

/-- C7: with a present scope, every entry of the scope's Extra map and of
its Tags map is inserted into the event's corresponding map — on a key
present in both maps the scope's value overwrites the event's — while
keys absent from the scope's map keep the event's value. -/
theorem scope_merge_maps (borderFrames sysModules : List String)
    (options : ClientOptions) (event : Event) (sc : Scope) :
    (∀ se : KVMap, sc.extra = some se → (se.map Prod.fst).Nodup →
        (∀ (k : String) (v : Value), (k, v) ∈ se →
            getKV (prepareEvent borderFrames sysModules options event (some sc)).extra k
              = some v)
        ∧ (∀ k : String, k ∉ se.map Prod.fst →
            getKV (prepareEvent borderFrames sysModules options event (some sc)).extra k
              = getKV event.extra k))
    ∧ (∀ st : KVMap, sc.tags = some st → (st.map Prod.fst).Nodup →
        (∀ (k : String) (v : Value), (k, v) ∈ st →
            getKV (prepareEvent borderFrames sysModules options event (some sc)).tags k
              = some v)
        ∧ (∀ k : String, k ∉ st.map Prod.fst →
            getKV (prepareEvent borderFrames sysModules options event (some sc)).tags k
              = getKV event.tags k)) := by
  have he := (prepareEvent_scalar_fields borderFrames sysModules options event (some sc)).2.1
  have ht := (prepareEvent_scalar_fields borderFrames sysModules options event (some sc)).2.2.1
  dsimp only at he ht
  have hme := (mergeScope_spec event sc).2.2.2.2.1
  have hmt := (mergeScope_spec event sc).2.2.2.2.2
  constructor
  · intro se hse hnd
    rw [hse] at hme
    rw [he, hme]
    exact ⟨fun k v hkv => getKV_extendKV_mem se k v event.extra hkv hnd,
      fun k hk => getKV_extendKV_not_mem se k event.extra hk⟩
  · intro st hst hnd
    rw [hst] at hmt
    rw [ht, hmt]
    exact ⟨fun k v hkv => getKV_extendKV_mem st k v event.tags hkv hnd,
      fun k hk => getKV_extendKV_not_mem st k event.tags hk⟩

theorem scope_merge_maps_witness :
    getKV (prepareEvent [] [] optsEmpty
        (Event.mk ("rust") [] [] none [] [(("k"), ("eventval"))])
        (some (Scope.mk none (some [(("k"), ("scopeval"))]) none []))).extra ("k")
      = some ("scopeval") :=
  (((scope_merge_maps [] [] optsEmpty
      (Event.mk ("rust") [] [] none [] [(("k"), ("eventval"))])
      (Scope.mk none (some [(("k"), ("scopeval"))]) none [])).1
    [(("k"), ("scopeval"))] rfl (by decide)).1 ("k") ("scopeval") (by decide))

/-- Options whose include and exclude lists share a matching rule, for
concrete checks of the precedence between them. -/
def optsBoth : ClientOptions :=
  { in_app_include := [("ex")], in_app_exclude := [("exlib")],
    extra_border_frames := [], max_breadcrumbs := 100, trim_backtraces := true }

/-- C3: a frame with an unset in-app flag whose function name starts with
both an `in_app_exclude` and an `in_app_include` member is classified
in-app = false (the exclude rule is evaluated first), contributes nothing
to `any_in_app`, and remains at false in the full classification of any
stacktrace containing it. -/
theorem exclude_precedence (options : ClientOptions) (sysModules : List String)
    (frame : Frame) (func : String)
    (hfn : frame.function = some func) (hunset : frame.in_app = none)
    (hex : ∃ m ∈ options.in_app_exclude, strStartsWith func m = true)
    (hinc : ∃ m ∈ options.in_app_include, strStartsWith func m = true) :
    (primeFrame options sysModules frame).1.in_app = some false
    ∧ (primeFrame options sysModules frame).2 = false
    ∧ ∀ (frames : List Frame) (i : Nat), frames[i]? = some frame →
        ∃ frame' : Frame, (classifyFrames options sysModules frames)[i]? = some frame'
          ∧ frame'.in_app = some false := by
  obtain ⟨m1, hm1, hsw1⟩ := hex
  have hexB : options.in_app_exclude.any (fun m => strStartsWith func m) = true :=
    List.any_eq_true.mpr ⟨m1, hm1, hsw1⟩
  obtain ⟨fn, pkg, ia⟩ := frame
  dsimp only at hfn hunset
  subst hfn
  subst hunset
  have hpr : (primeFrame options sysModules (Frame.mk (some func) pkg none)).1.in_app
        = some false
      ∧ (primeFrame options sysModules (Frame.mk (some func) pkg none)).2 = false := by
    cases pkg <;> simp [primeFrame, hexB]
  refine ⟨hpr.1, hpr.2, ?_⟩
  intro frames i hi
  rw [classifyFrames_getElem? options sysModules frames i, hi]
  refine ⟨_, rfl, ?_⟩
  by_cases ha : anyInApp options sysModules frames <;> simp [ha, hpr.1]

theorem exclude_precedence_witness :
    (primeFrame optsBoth [] (Frame.mk (some ("exlib::f")) none none)).1.in_app
      = some false :=
  (exclude_precedence optsBoth [] (Frame.mk (some ("exlib::f")) none none)
    ("exlib::f") rfl rfl (by decide) (by decide)).1

/-- C10: frames without a function name are skipped by package inference
and every per-frame in-app rule; yet the final fallback pass does not
skip them: when no frame was positively classified, such a frame with an
unset flag ends at in-app = true (package untouched), and when some frame
was positively classified, every frame the per-frame rules left unset
keeps its unset tri-state flag. -/
theorem nameless_frames_and_fallback (options : ClientOptions)
    (sysModules : List String) (frames : List Frame) :
    (∀ frame : Frame, frame.function = none →
        primeFrame options sysModules frame = (frame, false))
    ∧ (anyInApp options sysModules frames = false →
        ∀ (i : Nat) (frame : Frame), frames[i]? = some frame →
          frame.function = none → frame.in_app = none →
          (classifyFrames options sysModules frames)[i]?
            = some { frame with in_app := some true })
    ∧ (anyInApp options sysModules frames = true →
        ∀ (i : Nat) (frame : Frame), frames[i]? = some frame →
          (primeFrame options sysModules frame).1.in_app = none →
          (classifyFrames options sysModules frames)[i]?
            = some (primeFrame options sysModules frame).1) := by
  have hskip : ∀ frame : Frame, frame.function = none →
      primeFrame options sysModules frame = (frame, false) := by
    intro frame h
    obtain ⟨fn, pkg, ia⟩ := frame
    dsimp only at h
    subst h
    rfl
  refine ⟨hskip, ?_, ?_⟩
  · intro ha i frame hi hfn hia
    rw [classifyFrames_getElem? options sysModules frames i, hi]
    simp [ha, hskip frame hfn, hia]
  · intro ha i frame hi hpr
    rw [classifyFrames_getElem? options sysModules frames i, hi]
    simp [ha]

theorem nameless_frames_and_fallback_witness :
    (classifyFrames optsEmpty [] [Frame.mk none none none])[0]?
      = some (Frame.mk none none (some true)) :=
  (nameless_frames_and_fallback optsEmpty [] [Frame.mk none none none]).2.1
    (by decide) 0 (Frame.mk none none none) rfl rfl rfl

/-- C2 as stated is false on the code: a stacktrace whose only frame
carries an explicit in-app = false flag has no frame positively
classified as application code (no explicit true flag, and the include
list is empty), yet after classification that frame's flag is still
false, not true. -/
theorem fallback_totality_counterexample :
    (∀ f ∈ [Frame.mk (some ("f")) none (some false)], f.in_app ≠ some true)
    ∧ optsEmpty.in_app_include = []
    ∧ ¬ (∀ f ∈ classifyFrames optsEmpty [] [Frame.mk (some ("f")) none (some false)],
          f.in_app = some true) := by decide

/-- C2 amended: for every stacktrace in which no frame is positively
classified as application code, the fallback pass sets every frame whose
in-app flag is still unset after the per-frame rules to in-app = true, so
after classification every frame carries a set flag; frames already
carrying or assigned in-app = false keep false rather than become true. -/
theorem fallback_totality (options : ClientOptions) (sysModules : List String)
    (frames : List Frame) (h : anyInApp options sysModules frames = false) :
    (∀ f ∈ classifyFrames options sysModules frames, f.in_app.isSome = true)
    ∧ (∀ (i : Nat) (frame : Frame), frames[i]? = some frame →
        (primeFrame options sysModules frame).1.in_app = none →
        (classifyFrames options sysModules frames)[i]?
          = some { (primeFrame options sysModules frame).1 with in_app := some true }) := by
  constructor
  · intro f hf
    unfold classifyFrames at hf
    rw [if_neg (by simp [h])] at hf
    obtain ⟨pf, hpf, rfl⟩ := List.mem_map.mp hf
    rcases hpa : pf.in_app with _ | b
    · simp [hpa]
    · simp [hpa]
  · intro i frame hi hpr
    rw [classifyFrames_getElem? options sysModules frames i, hi]
    simp [h, hpr]

theorem fallback_totality_witness :
    (classifyFrames optsEmpty [] [Frame.mk (some ("app::main")) none none])[0]?
      = some (Frame.mk (some ("app::main")) (some ("app")) (some true)) :=
  (fallback_totality optsEmpty [] [Frame.mk (some ("app::main")) none none]
    (by decide)).2 0 (Frame.mk (some ("app::main")) none none) rfl (by decide)

theorem primeFrame_in_app_of_some (options : ClientOptions) (sysModules : List String)
    (frame : Frame) (h : frame.in_app.isSome = true) :
    (primeFrame options sysModules frame).1.in_app = frame.in_app := by
  obtain ⟨fn, pkg, ia⟩ := frame
  cases fn with
  | none => rfl
  | some func =>
      rcases ia with _ | b
      · simp at h
      · cases pkg <;> cases b <;> simp [primeFrame]

theorem primeFrame_idem_of_some (options : ClientOptions) (sysModules : List String)
    (frame : Frame) (h : frame.in_app.isSome = true) :
    primeFrame options sysModules (primeFrame options sysModules frame).1
      = primeFrame options sysModules frame := by
  obtain ⟨fn, pkg, ia⟩ := frame
  cases fn with
  | none => rfl
  | some func =>
      rcases ia with _ | b
      · simp at h
      · rcases pkg with _ | p
        · rcases hc : crateOfFunc func with _ | c <;> cases b <;>
            simp [primeFrame, hc]
        · cases b <;> simp [primeFrame]

theorem classify_eq_map_of_all_some (options : ClientOptions)
    (sysModules : List String) (frames : List Frame)
    (h : ∀ f ∈ frames, f.in_app.isSome = true) :
    classifyFrames options sysModules frames
      = frames.map (fun f => (primeFrame options sysModules f).1) := by
  unfold classifyFrames
  by_cases ha : anyInApp options sysModules frames
  · simp [ha]
  · rw [if_neg (by simp [ha])]
    refine map_id_of_forall _ _ ?_
    intro pf hpf
    obtain ⟨f, hf, rfl⟩ := List.mem_map.mp hpf
    have hia := primeFrame_in_app_of_some options sysModules f (h f hf)
    rcases hfa : f.in_app with _ | b
    · exact absurd (h f hf) (by simp [hfa])
    · rw [hfa] at hia
      simp [hia]

/-- C5 as stated is false on the code: a stacktrace whose single frame
already carries an explicit in-app flag is nevertheless changed by the
classification pass, because package inference fills in the missing
package label from the function name's crate part. -/
theorem classification_idem_counterexample :
    (∀ f ∈ [Frame.mk (some ("a::b")) none (some true)], f.in_app.isSome = true)
    ∧ classifyFrames optsEmpty [] [Frame.mk (some ("a::b")) none (some true)]
        ≠ [Frame.mk (some ("a::b")) none (some true)] := by decide

/-- C5 amended: on a stacktrace whose frames all carry explicit in-app
flags, the classification pass leaves every frame's in-app flag unchanged
(it may still fill in missing package labels), and a second run of the
pass after a first run changes nothing. -/
theorem classification_idem (options : ClientOptions) (sysModules : List String)
    (frames : List Frame) (h : ∀ f ∈ frames, f.in_app.isSome = true) :
    (classifyFrames options sysModules frames).map Frame.in_app
        = frames.map Frame.in_app
    ∧ classifyFrames options sysModules (classifyFrames options sysModules frames)
        = classifyFrames options sysModules frames := by
  have hC := classify_eq_map_of_all_some options sysModules frames h
  have hP : ∀ pf ∈ frames.map (fun f => (primeFrame options sysModules f).1),
      pf.in_app.isSome = true := by
    intro pf hpf
    obtain ⟨f, hf, rfl⟩ := List.mem_map.mp hpf
    rw [primeFrame_in_app_of_some options sysModules f (h f hf)]
    exact h f hf
  constructor
  · rw [hC, List.map_map]
    refine List.map_congr_left ?_
    intro f hf
    exact primeFrame_in_app_of_some options sysModules f (h f hf)
  · rw [hC, classify_eq_map_of_all_some options sysModules _ hP]
    refine map_id_of_forall _ _ ?_
    intro pf hpf
    obtain ⟨f, hf, rfl⟩ := List.mem_map.mp hpf
    exact congrArg Prod.fst (primeFrame_idem_of_some options sysModules f (h f hf))

theorem classification_idem_witness :
    (classifyFrames optsEmpty [] [Frame.mk (some ("a::b")) none (some true)]).map
        Frame.in_app
      = [Frame.mk (some ("a::b")) none (some true)].map Frame.in_app :=
  (classification_idem optsEmpty [] [Frame.mk (some ("a::b")) none (some true)]
    (by decide)).1

theorem primeFrame_function (options : ClientOptions) (sysModules : List String)
    (frame : Frame) :
    (primeFrame options sysModules frame).1.function = frame.function := by
  obtain ⟨fn, pkg, ia⟩ := frame
  cases fn with
  | none => rfl
  | some func =>
      rcases ia with _ | b
      · cases pkg <;>
          by_cases h1 : options.in_app_exclude.any (fun m => strStartsWith func m) <;>
          by_cases h2 : options.in_app_include.any (fun m => strStartsWith func m) <;>
          by_cases h3 : sysModules.any (fun m => strStartsWith func m) <;>
          simp [primeFrame, h1, h2, h3]
      · cases pkg <;> cases b <;> simp [primeFrame]

theorem classifyFrames_functions (options : ClientOptions) (sysModules : List String)
    (frames : List Frame) :
    (classifyFrames options sysModules frames).map Frame.function
      = frames.map Frame.function := by
  unfold classifyFrames
  by_cases ha : anyInApp options sysModules frames
  · rw [if_pos (by simp [ha]), List.map_map]
    exact List.map_congr_left (fun f _ => primeFrame_function options sysModules f)
  · rw [if_neg (by simp [ha]), List.map_map, List.map_map]
    refine List.map_congr_left (fun f _ => ?_)
    simp only [Function.comp_apply]
    split <;> simp [primeFrame_function]

theorem trimFrames_is_take (borderFrames : List String) (options : ClientOptions)
    (frames : List Frame) :
    ∃ n : Nat, trimFrames borderFrames options frames = frames.take n := by
  unfold trimFrames
  cases h : trimCutoff borderFrames options frames with
  | none => exact ⟨frames.length, (List.take_length frames).symm⟩
  | some c => exact ⟨frames.length - c - 1, rfl⟩

theorem take_eq_take_min {α : Type} (l : List α) (n : Nat) :
    l.take n = l.take (min n l.length) := by
  rcases Nat.le_total n l.length with h | h
  · rw [Nat.min_eq_left h]
  · rw [Nat.min_eq_right h, List.take_of_length_le h, List.take_length]

theorem prepareEvent_exceptions (borderFrames sysModules : List String)
    (options : ClientOptions) (event : Event) (scope : Option Scope) :
    (prepareEvent borderFrames sysModules options event scope).exceptions
      = event.exceptions.map (fun exc =>
          match exc.stacktrace with
          | none => exc
          | some st =>
              { exc with
                stacktrace := some (prepareStacktrace borderFrames sysModules options st) })
      := by
  cases scope with
  | none =>
      unfold prepareEvent
      dsimp only
      rw [apply_ite Event.exceptions]
      dsimp only
      rw [ite_self]
  | some sc =>
      unfold prepareEvent
      dsimp only
      rw [apply_ite Event.exceptions]
      dsimp only
      rw [ite_self, (mergeScope_spec event sc).2.1]

/-- C9: preparation modifies only the event's breadcrumbs, user, extra,
tags, platform, and the stacktraces of its exceptions, and within those
stacktraces only the frame-sequence length and the frames' package and
in-app fields: the number of exceptions is preserved, an absent
stacktrace leaves its exception untouched, a present stacktrace stays
present, the surviving frame sequence is a prefix of the original one in
the original order, and every surviving frame keeps its function name.
Scope and options are read-only inputs of the function. -/
theorem prepare_frame_condition (borderFrames sysModules : List String)
    (options : ClientOptions) (event : Event) (scope : Option Scope) :
    (prepareEvent borderFrames sysModules options event scope).exceptions.length
        = event.exceptions.length
    ∧ (∀ (i : Nat) (exc : Exception), event.exceptions[i]? = some exc →
        ∃ exc' : Exception,
          (prepareEvent borderFrames sysModules options event scope).exceptions[i]?
              = some exc'
          ∧ (exc.stacktrace = none → exc' = exc)
          ∧ (∀ st : Stacktrace, exc.stacktrace = some st →
              ∃ st' : Stacktrace, exc'.stacktrace = some st'
                ∧ st'.frames.length ≤ st.frames.length
                ∧ st'.frames.map Frame.function
                    = (st.frames.take st'.frames.length).map Frame.function)) := by
  have hexc := prepareEvent_exceptions borderFrames sysModules options event scope
  constructor
  · rw [hexc, List.length_map]
  · intro i exc hi
    rw [hexc, List.getElem?_map, hi]
    cases hst0 : exc.stacktrace with
    | none =>
        refine ⟨exc, by simp [hst0], fun _ => rfl, ?_⟩
        intro st hst
        exact absurd hst (by simp)
    | some st0 =>
        refine ⟨{ exc with
            stacktrace := some (prepareStacktrace borderFrames sysModules options st0) },
          by simp [hst0], ?_, ?_⟩
        · intro hn
          exact absurd hn (by simp)
        · intro st hst
          injection hst with hst
          subst hst
          obtain ⟨n, hn⟩ : ∃ n : Nat,
              (if options.trim_backtraces then
                trimFrames borderFrames options st0.frames else st0.frames)
              = st0.frames.take n := by
            by_cases htr : options.trim_backtraces
            · rw [if_pos htr]
              exact trimFrames_is_take borderFrames options st0.frames
            · rw [if_neg htr]
              exact ⟨st0.frames.length, (List.take_length st0.frames).symm⟩
          refine ⟨prepareStacktrace borderFrames sysModules options st0, rfl, ?_, ?_⟩
          · show (prepareStacktrace borderFrames sysModules options st0).frames.length
                ≤ st0.frames.length
            unfold prepareStacktrace
            dsimp only
            rw [classifyFrames_length, hn, List.length_take]
            omega
          · show (prepareStacktrace borderFrames sysModules options st0).frames.map
                  Frame.function
                = (st0.frames.take (prepareStacktrace borderFrames sysModules
                    options st0).frames.length).map Frame.function
            unfold prepareStacktrace
            dsimp only
            rw [classifyFrames_functions, classifyFrames_length, hn, List.length_take,
              take_eq_take_min st0.frames n]

def excC9 : Exception :=
  Exception.mk (some (Stacktrace.mk [Frame.mk (some ("app::main")) none none]))

def evC9 : Event := Event.mk ("other") [excC9] [] none [] []

theorem prepare_frame_condition_witness :
    ∃ exc' : Exception,
      (prepareEvent [] [] optsEmpty evC9 none).exceptions[0]? = some exc'
      ∧ (excC9.stacktrace = none → exc' = excC9)
      ∧ (∀ st : Stacktrace, excC9.stacktrace = some st →
          ∃ st' : Stacktrace, exc'.stacktrace = some st'
            ∧ st'.frames.length ≤ st.frames.length
            ∧ st'.frames.map Frame.function
                = (st.frames.take st'.frames.length).map Frame.function) :=
  (prepare_frame_condition [] [] optsEmpty evC9 none).2 0 excC9 rfl

/-- The spec's end-to-end scenario (§8): a two-frame stacktrace whose
trailing frame is a built-in border marker is trimmed to the application
frame, which then gets package `"app"` and, via the fallback, in-app
= true. -/
theorem end_to_end_scenario :
    prepareStacktrace [("std::rt::lang_start")] [] optsEmpty
      (Stacktrace.mk
        [Frame.mk (some ("app::main")) none none,
         Frame.mk (some ("std::rt::lang_start")) none none])
      = Stacktrace.mk [Frame.mk (some ("app::main")) (some ("app")) (some true)] := by
  decide

end SentryClient
